import Mathlib

/-!
Shallow embedding of the core of the github-activity-tracker service:
the TTL cache (app/utils/cache.py), the upstream client
(app/repositories/github_repository.py), the aggregation service
(app/services/github_service.py) and the data models
(app/models/github.py, app/models/schemas.py, app/exceptions.py,
app/core/config.py).

Modelling conventions:
- Python timestamps (time.time) are integers passed explicitly as `now`;
  each cache operation observes a single timestamp.
- A Python dict is an insertion-ordered association list with distinct
  keys; update keeps the position of an existing key, insertion appends.
- Fallible Python code is embedded in `Except`.  Exceptions of the
  module's own taxonomy (GitHubAPIError and subclasses) and exceptions
  that escape untyped (ValueError from int(), pydantic ValidationError)
  are separate constructors of `PyError`.
- `Counter.most_common n` is a stable sort of the counter items by count
  descending (equal counts keep insertion order) truncated to `n`;
  it is embedded as a stable insertion sort.
-/

namespace GithubActivity

/-- Embeds `GitHubActor` (app/models/github.py): a login and an id. -/
structure GitHubActor where
  login : String
  id : Int
deriving Repr, DecidableEq

/-- Embeds `GitHubRepositoryResponse` (app/models/github.py): id, name in
"owner/repo-name" form, and url. -/
structure GitHubRepositoryResponse where
  id : Int
  name : String
  url : String
deriving Repr, DecidableEq

/-- Embeds the `full_name` property: returns the `name` field unchanged. -/
def GitHubRepositoryResponse.full_name (r : GitHubRepositoryResponse) : String :=
  r.name

/-- Embeds the Python membership test `"/" in name`. -/
def containsSlash (s : String) : Bool :=
  s.data.contains '/'

/-- Embeds `name.split("/")[0]` under the guard `"/" in name`: the characters
of `name` before the first slash. -/
def beforeFirstSlash (s : String) : String :=
  String.mk (s.data.takeWhile (fun c => c ≠ '/'))

/-- Embeds the `owner` property of `GitHubRepositoryResponse`: the owner login
parsed from the `name` field (empty string when no slash is present), with a
placeholder id of 0. -/
def GitHubRepositoryResponse.owner (r : GitHubRepositoryResponse) : GitHubActor :=
  { login := if containsSlash r.name then beforeFirstSlash r.name else "", id := 0 }

/-- The timestamp produced by the `created_at` field validator: the components
of a parsed ISO-8601 datetime.  `offsetMinutes` is the UTC offset, `none` for
a naive datetime. -/
structure EventTime where
  year : Nat
  month : Nat
  day : Nat
  hour : Nat
  minute : Nat
  second : Nat
  offsetMinutes : Option Int
deriving Repr, DecidableEq

/-- Value of one decimal digit character. -/
def digitVal (c : Char) : Nat :=
  c.toNat - 48

/-- Reads exactly two decimal digits. -/
def twoDigits : List Char → Option (Nat × List Char)
  | a :: b :: rest =>
    if a.isDigit ∧ b.isDigit then some (10 * digitVal a + digitVal b, rest) else none
  | _ => none

/-- Reads exactly four decimal digits. -/
def fourDigits : List Char → Option (Nat × List Char)
  | a :: b :: c :: d :: rest =>
    if a.isDigit ∧ b.isDigit ∧ c.isDigit ∧ d.isDigit then
      some (1000 * digitVal a + 100 * digitVal b + 10 * digitVal c + digitVal d, rest)
    else none
  | _ => none

/-- Consumes one expected character. -/
def expectChar (c : Char) : List Char → Option (List Char)
  | x :: rest => if x = c then some rest else none
  | _ => none

/-- Reads the optional trailing UTC offset "+HH:MM" or "-HH:MM". -/
def parseOffset : List Char → Option (Option Int)
  | [] => some none
  | s :: rest =>
    if s = '+' ∨ s = '-' then
      match twoDigits rest with
      | some (h, rest1) =>
        match expectChar ':' rest1 with
        | some rest2 =>
          match twoDigits rest2 with
          | some (m, []) =>
            if h < 24 ∧ m < 60 then
              some (some (if s = '-' then -((h * 60 + m : Nat) : Int) else ((h * 60 + m : Nat) : Int)))
            else none
          | _ => none
        | none => none
      | none => none
    else none

/-- Models `datetime.fromisoformat` on the canonical GitHub timestamp shape
"YYYY-MM-DDTHH:MM:SS" with an optional "+HH:MM" / "-HH:MM" offset.  Field
ranges are validated; calendar-level day-of-month validation is not modelled
(no claim depends on it). -/
def fromIso (s : String) : Option EventTime :=
  match fourDigits s.data with
  | some (y, r1) =>
    match expectChar '-' r1 with
    | some r2 =>
      match twoDigits r2 with
      | some (mo, r3) =>
        match expectChar '-' r3 with
        | some r4 =>
          match twoDigits r4 with
          | some (d, r5) =>
            match expectChar 'T' r5 with
            | some r6 =>
              match twoDigits r6 with
              | some (h, r7) =>
                match expectChar ':' r7 with
                | some r8 =>
                  match twoDigits r8 with
                  | some (mi, r9) =>
                    match expectChar ':' r9 with
                    | some r10 =>
                      match twoDigits r10 with
                      | some (sec, r11) =>
                        match parseOffset r11 with
                        | some off =>
                          if 1 ≤ mo ∧ mo ≤ 12 ∧ 1 ≤ d ∧ d ≤ 31 ∧ h < 24 ∧ mi < 60 ∧ sec < 60 then
                            some ⟨y, mo, d, h, mi, sec, off⟩
                          else none
                        | none => none
                      | none => none
                    | none => none
                  | none => none
                | none => none
              | none => none
            | none => none
          | none => none
        | none => none
      | none => none
    | none => none
  | none => none

/-- Embeds `v.replace("Z", "+00:00")`: every 'Z' is replaced. -/
def replaceZ (s : String) : String :=
  String.mk (s.data.foldr (fun c acc => if c = 'Z' then '+' :: '0' :: '0' :: ':' :: '0' :: '0' :: acc else c :: acc) [])

/-- Embeds the `parse_created_at` field validator of `GitHubEvent`. -/
def parseCreatedAt (v : String) : Option EventTime :=
  fromIso (replaceZ v)

/-- Embeds `GitHubEvent` (app/models/github.py). -/
structure GitHubEvent where
  id : Int
  type : String
  actor : GitHubActor
  repo : GitHubRepositoryResponse
  created_at : EventTime
deriving Repr, DecidableEq

/-- JSON values as returned by `response.json()`.  Numbers are modelled as
integers: the fields the models read are integral. -/
inductive Json where
  | null
  | bool (b : Bool)
  | num (n : Int)
  | str (s : String)
  | arr (items : List Json)
  | obj (fields : List (String × Json))
deriving Repr

/-- Field lookup in a JSON object. -/
def Json.getField (j : Json) (k : String) : Option Json :=
  match j with
  | .obj fields => fields.lookup k
  | _ => none

/-- A required field of a record being validated. -/
def Json.reqField (j : Json) (k : String) : Except String Json :=
  match j.getField k with
  | some v => .ok v
  | none => .error ("field required: " ++ k)

/-- An integer-typed field.  Pydantic's lax coercions (e.g. numeric strings)
are not modelled; no claim depends on them. -/
def Json.asInt : Json → Except String Int
  | .num n => .ok n
  | _ => .error "value is not a valid integer"

/-- A string-typed field. -/
def Json.asStr : Json → Except String String
  | .str s => .ok s
  | _ => .error "value is not a valid string"

/-- Embeds validation of a `GitHubActor` record. -/
def parseGitHubActor (j : Json) : Except String GitHubActor := do
  let login ← (← j.reqField "login").asStr
  let id ← (← j.reqField "id").asInt
  .ok { login := login, id := id }

/-- Embeds validation of a `GitHubRepositoryResponse` record. -/
def parseGitHubRepositoryResponse (j : Json) : Except String GitHubRepositoryResponse := do
  let id ← (← j.reqField "id").asInt
  let name ← (← j.reqField "name").asStr
  let url ← (← j.reqField "url").asStr
  .ok { id := id, name := name, url := url }

/-- Embeds `GitHubEvent(**event)`: pydantic validation of one event record,
including the `created_at` validator.  A failure is a pydantic
ValidationError. -/
def parseGitHubEvent (j : Json) : Except String GitHubEvent := do
  let id ← (← j.reqField "id").asInt
  let ty ← (← j.reqField "type").asStr
  let actor ← parseGitHubActor (← j.reqField "actor")
  let repo ← parseGitHubRepositoryResponse (← j.reqField "repo")
  let ca ← (← j.reqField "created_at").asStr
  match parseCreatedAt ca with
  | some t => .ok { id := id, type := ty, actor := actor, repo := repo, created_at := t }
  | none => .error "invalid datetime format"

/-- Embeds `[GitHubEvent(**event) for event in events_data]`: the whole body
must be a list and every record must validate; the first failure aborts. -/
def parseEvents (body : Json) : Except String (List GitHubEvent) :=
  match body with
  | .arr items => items.mapM parseGitHubEvent
  | _ => .error "events payload is not a list"

/-- Exceptions that can escape `_fetch_from_api`.  The first three embed the
module's own taxonomy (app/exceptions.py): `UserNotFoundError`,
`RateLimitError`, `GitHubAPIError`.  The last two embed exceptions the code
does not catch: `ValueError` from `int()` and pydantic's ValidationError. -/
inductive PyError where
  | userNotFound (username : String)
  | rateLimited (retryAfter : Int)
  | gitHubAPIError (message : String) (statusCode : Option Nat)
  | valueError (message : String)
  | validationError (message : String)
deriving Repr, DecidableEq

/-- Whether an error belongs to the documented taxonomy
UserNotFound / RateLimited / UpstreamError. -/
def PyError.inTaxonomy : PyError → Bool
  | .userNotFound _ => true
  | .rateLimited _ => true
  | .gitHubAPIError _ _ => true
  | .valueError _ => false
  | .validationError _ => false

/-- An upstream HTTP response: status code, headers, decoded JSON body. -/
structure HttpResponse where
  statusCode : Nat
  headers : List (String × String)
  body : Json

/-- Outcome of the single `client.get` call: either a response or a
transport-level failure (`httpx.RequestError`). -/
inductive UpstreamResult where
  | response (r : HttpResponse)
  | transportError (message : String)

/-- Header lookup, as used for `response.headers.get("Retry-After", 0)`. -/
def headerGet (headers : List (String × String)) (k : String) : Option String :=
  headers.lookup k

/-- Strips leading and trailing whitespace, as Python `int()` does. -/
def pyStrip (l : List Char) : List Char :=
  ((l.dropWhile Char.isWhitespace).reverse.dropWhile Char.isWhitespace).reverse

/-- Digits of a decimal literal, `none` when empty or not all digits. -/
def digitsToNat (l : List Char) : Option Nat :=
  match l with
  | [] => none
  | _ => if l.all Char.isDigit then some (l.foldl (fun n c => 10 * n + digitVal c) 0) else none

/-- Models Python `int(s)` on a string: optional sign, decimal digits,
surrounding whitespace allowed; `none` when the literal is invalid (Python
raises ValueError).  Digit-group underscores are not modelled. -/
def pyIntOfString (s : String) : Option Int :=
  match pyStrip s.data with
  | '+' :: ds => (digitsToNat ds).map (fun n => (n : Int))
  | '-' :: ds => (digitsToNat ds).map (fun n => -(n : Int))
  | ds => (digitsToNat ds).map (fun n => (n : Int))

/-- Whether a status code is a 2xx success (`response.is_success` in httpx;
`raise_for_status` raises for every other class). -/
def is2xx (code : Nat) : Bool :=
  200 ≤ code ∧ code < 300

/-- Embeds `GitHubRepository._fetch_from_api`.  The 404 and 429 checks come
first; `raise_for_status` turns any other non-2xx status into an
`HTTPStatusError` caught as `GitHubAPIError` with the status code; a
transport error is caught as `GitHubAPIError` without one.  A non-integer
`Retry-After` makes `int()` raise an uncaught ValueError; a record that fails
pydantic validation raises an uncaught ValidationError. -/
def fetchFromApi (username : String) (upstream : UpstreamResult) :
    Except PyError (List GitHubEvent) :=
  match upstream with
  | .transportError msg => .error (.gitHubAPIError ("Request error: " ++ msg) none)
  | .response r =>
    if r.statusCode = 404 then .error (.userNotFound username)
    else if r.statusCode = 429 then
      match headerGet r.headers "Retry-After" with
      | none => .error (.rateLimited 0)
      | some s =>
        match pyIntOfString s with
        | some n => .error (.rateLimited n)
        | none => .error (.valueError ("invalid literal for int with base 10: " ++ s))
    else if is2xx r.statusCode then
      match parseEvents r.body with
      | .ok events => .ok events
      | .error msg => .error (.validationError msg)
    else
      .error (.gitHubAPIError ("GitHub API error: status " ++ toString r.statusCode) (some r.statusCode))

/-- The internal dict of a `TTLCache`: key, value, expiry timestamp, in
insertion order. -/
abbrev CacheDict (V : Type) := List (String × V × Int)

/-- First-match lookup in the dict (Python `self._cache[key]` /
`key in self._cache`). -/
def dictGet {V : Type} (d : CacheDict V) (k : String) : Option (V × Int) :=
  match d with
  | [] => none
  | (k', e) :: rest => if k' = k then some e else dictGet rest k

/-- Dict assignment: replaces in place when the key exists, appends
otherwise (Python dict insertion order). -/
def dictSet {V : Type} (d : CacheDict V) (k : String) (e : V × Int) : CacheDict V :=
  match d with
  | [] => [(k, e)]
  | (k', e') :: rest => if k' = k then (k', e) :: rest else (k', e') :: dictSet rest k e

/-- Dict deletion of the entry with the given key. -/
def dictDel {V : Type} (d : CacheDict V) (k : String) : CacheDict V :=
  match d with
  | [] => []
  | (k', e') :: rest => if k' = k then rest else (k', e') :: dictDel rest k

/-- Embeds `TTLCache` (app/utils/cache.py): the dict plus the two
configuration fields. -/
structure TTLCache (V : Type) where
  cache : CacheDict V
  ttl_seconds : Int
  max_size : Int
deriving Repr, DecidableEq

/-- Embeds `TTLCache.__init__`: it stores the two parameters next to an empty
dict and performs no validation, so construction never fails; it is embedded
in `Except` so that the absence of a failure path is part of the statement. -/
def TTLCache.init (V : Type) (ttl_seconds max_size : Int) : Except String (TTLCache V) :=
  .ok { cache := [], ttl_seconds := ttl_seconds, max_size := max_size }

/-- Embeds `TTLCache._evict_expired`: removes every entry whose expiry is at
or before `now`. -/
def evictExpired {V : Type} (now : Int) (c : TTLCache V) : TTLCache V :=
  { c with cache := c.cache.filter (fun e => now < e.2.2) }

/-- Embeds `min(self._cache.keys(), key=lambda k: self._cache[k][1])`: the
first entry attaining the minimal expiry, as Python's `min` keeps the first
of several minima. -/
def minExpiryEntry {V : Type} : CacheDict V → Option (String × V × Int)
  | [] => none
  | e :: rest =>
    match minExpiryEntry rest with
    | none => some e
    | some m => if m.2.2 < e.2.2 then some m else some e

/-- Embeds `TTLCache._evict_oldest`: when the dict is nonempty, deletes the
entry with the smallest expiry timestamp. -/
def evictOldest {V : Type} (c : TTLCache V) : TTLCache V :=
  match minExpiryEntry c.cache with
  | some e => { c with cache := dictDel c.cache e.1 }
  | none => c

/-- Embeds `TTLCache.get`: sweep expired entries, then return the value when
the key is present and unexpired; an expired entry found after the sweep is
deleted (unreachable when one timestamp is observed per call, kept for
faithfulness).  Returns the value and the mutated cache. -/
def TTLCache.get {V : Type} (now : Int) (c : TTLCache V) (key : String) :
    Option V × TTLCache V :=
  let c1 := evictExpired now c
  match dictGet c1.cache key with
  | some (v, expiry) =>
    if now < expiry then (some v, c1)
    else (none, { c1 with cache := dictDel c1.cache key })
  | none => (none, c1)

/-- Embeds `TTLCache.set`: sweep expired entries; when the swept dict already
holds `max_size` or more entries and the key is new, evict the oldest entry;
then store the value with expiry `now + ttl_seconds`. -/
def TTLCache.set {V : Type} (now : Int) (c : TTLCache V) (key : String) (v : V) :
    TTLCache V :=
  let c1 := evictExpired now c
  let c2 :=
    if c1.max_size ≤ (c1.cache.length : Int) ∧ (dictGet c1.cache key).isNone then
      evictOldest c1
    else c1
  { c2 with cache := dictSet c2.cache key (v, now + c2.ttl_seconds) }

/-- Embeds `TTLCache.clear`. -/
def TTLCache.clear {V : Type} (c : TTLCache V) : TTLCache V :=
  { c with cache := [] }

/-- One observable cache operation, for stating reachable-state invariants. -/
inductive CacheOp (V : Type) where
  | get (now : Int) (key : String)
  | set (now : Int) (key : String) (v : V)
  | clear

/-- State transition of one cache operation. -/
def applyOp {V : Type} (c : TTLCache V) : CacheOp V → TTLCache V
  | .get now key => (TTLCache.get now c key).2
  | .set now key v => TTLCache.set now c key v
  | .clear => c.clear

/-- State after a sequence of cache operations. -/
def applyOps {V : Type} (c : TTLCache V) (ops : List (CacheOp V)) : TTLCache V :=
  ops.foldl applyOp c

/-- Embeds `Settings.validate_positive_int` (app/core/config.py), the
pydantic field validator for `cache_ttl_seconds`, `cache_max_size` and
`request_timeout_seconds`. -/
def validatePositiveInt (v : Int) : Except String Int :=
  if v ≤ 0 then .error ("Value must be positive, got " ++ toString v) else .ok v

/-- Embeds `GitHubRepository._get_cache_key`. -/
def getCacheKey (username : String) : String :=
  "github_events:" ++ username

/-- Result of one `GitHubRepository.get_user_events` call: the returned value
or escaped exception, the cache state after the call, and how many upstream
HTTP calls were issued. -/
structure FetchResult where
  result : Except PyError (List GitHubEvent)
  cache : TTLCache (List GitHubEvent)
  upstreamCalls : Nat
deriving Repr

/-- Embeds `GitHubRepository.get_user_events`: consult the cache under the
username's key; on a hit return the cached list with no upstream call; on a
miss issue the single upstream fetch and, only on success, store the parsed
list in the cache before returning it. -/
def getUserEvents (now : Int) (upstream : UpstreamResult)
    (c : TTLCache (List GitHubEvent)) (username : String) : FetchResult :=
  let key := getCacheKey username
  match TTLCache.get now c key with
  | (some events, c1) => ⟨.ok events, c1, 0⟩
  | (none, c1) =>
    match fetchFromApi username upstream with
    | .ok events => ⟨.ok events, TTLCache.set now c1 key events, 1⟩
    | .error e => ⟨.error e, c1, 1⟩

/-- Embeds `ActivityType` (app/models/schemas.py); occurrence counts are
non-negative. -/
structure ActivityType where
  type : String
  count : Nat
deriving Repr, DecidableEq

/-- Embeds `RepositoryActivity` (app/models/schemas.py). -/
structure RepositoryActivity where
  repository_name : String
  is_owner : Bool
  top_activity_types : List ActivityType
deriving Repr, DecidableEq

/-- Embeds `UserActivityResponse` (app/models/schemas.py). -/
structure UserActivityResponse where
  username : String
  repositories : List RepositoryActivity
  total_repositories : Nat
  total_events : Nat
deriving Repr, DecidableEq

/-- One step of `_group_events_by_repository`: append the event to its
repository's group, keeping the group's position; a new repository name opens
a group at the end (dict insertion order). -/
def addEventToGroups (groups : List (String × List GitHubEvent)) (key : String)
    (e : GitHubEvent) : List (String × List GitHubEvent) :=
  match groups with
  | [] => [(key, [e])]
  | (k, es) :: rest =>
    if k = key then (k, es ++ [e]) :: rest else (k, es) :: addEventToGroups rest key e

/-- Embeds `GitHubService._group_events_by_repository`: a left fold of the
events into an insertion-ordered dict of groups keyed by
`event.repo.full_name`. -/
def groupEventsByRepository (events : List GitHubEvent) :
    List (String × List GitHubEvent) :=
  events.foldl (fun gs e => addEventToGroups gs e.repo.full_name e) []

/-- One step of `Counter(...)`: increment the count of a seen type in place,
or append a new type with count 1. -/
def addTypeToCounter (counter : List (String × Nat)) (ty : String) :
    List (String × Nat) :=
  match counter with
  | [] => [(ty, 1)]
  | (t, n) :: rest =>
    if t = ty then (t, n + 1) :: rest else (t, n) :: addTypeToCounter rest ty

/-- Embeds `Counter(event.type for event in events)`: counts per type, types
in first-occurrence order. -/
def typeCounter (types : List String) : List (String × Nat) :=
  types.foldl addTypeToCounter []

/-- Stable insertion for a count-descending order: the new element (which is
earlier in the original list) passes entries with strictly greater count and
lands before the first entry whose count is not greater, so equal counts keep
their original relative order. -/
def insertByCountDesc (p : String × Nat) : List (String × Nat) → List (String × Nat)
  | [] => [p]
  | q :: rest => if p.2 < q.2 then q :: insertByCountDesc p rest else p :: q :: rest

/-- Stable sort of counter items by count descending, the order produced by
`Counter.most_common`. -/
def sortByCountDesc : List (String × Nat) → List (String × Nat)
  | [] => []
  | p :: rest => insertByCountDesc p (sortByCountDesc rest)

/-- Embeds `counter.most_common(n)`: the stable count-descending sort of the
counter items, truncated to `n`. -/
def mostCommon (counter : List (String × Nat)) (n : Nat) : List (String × Nat) :=
  (sortByCountDesc counter).take n

/-- Embeds `GitHubService._get_top_activity_types`. -/
def getTopActivityTypes (events : List GitHubEvent) (top_n : Nat) :
    List ActivityType :=
  match events with
  | [] => []
  | _ =>
    (mostCommon (typeCounter (events.map (fun e => e.type))) top_n).map
      (fun p => { type := p.1, count := p.2 })

/-- Models Python `str.lower` character by character (ASCII; the data the
service compares are ASCII logins and repository names). -/
def pyLower (s : String) : String :=
  String.mk (s.data.map Char.toLower)

/-- Embeds `GitHubService._is_repository_owner`: compare the derived owner
login with the username, both lower-cased. -/
def isRepositoryOwner (repo : GitHubRepositoryResponse) (username : String) : Bool :=
  pyLower repo.owner.login == pyLower username

/-- Embeds the aggregation loop of `GitHubService.analyze_user_activity` over
an already-fetched event list: group by repository, and per group compute the
top-3 activity types and the ownership flag from the group's first event. -/
def analyzeEvents (events : List GitHubEvent) (username : String) :
    UserActivityResponse :=
  let repoGroups := groupEventsByRepository events
  let repositories := repoGroups.map (fun g =>
    { repository_name := g.1
      is_owner :=
        match g.2 with
        | e :: _ => isRepositoryOwner e.repo username
        | [] => false
      top_activity_types := getTopActivityTypes g.2 3 : RepositoryActivity })
  { username := username
    repositories := repositories
    total_repositories := repositories.length
    total_events := events.length }

/-! Spec-side definitions, transcribed from the claims' wording, to be
compared with the source-side definitions above. -/

/-- Spec-side: the distinct elements of a list in the order each is first
encountered. -/
def specFirstSeen (l : List String) : List String :=
  l.foldl (fun acc s => if s ∈ acc then acc else acc ++ [s]) []

/-- Spec-side: the number of occurrences of `s` in `l`. -/
def countOcc (s : String) (l : List String) : Nat :=
  (l.filter (fun t => t = s)).length

/-- Spec-side: the activity types of a group with their occurrence counts,
types listed in the order first seen within the group. -/
def specTypeCounts (types : List String) : List (String × Nat) :=
  (specFirstSeen types).map (fun t => (t, countOcc t types))

/-- The largest count occurring in a counter. -/
def maxCount (counter : List (String × Nat)) : Nat :=
  counter.foldr (fun p m => max p.2 m) 0

/-- The entries of `l` bucketed by the count values of `counts`, in that
order of counts, entries within a bucket in their original order. -/
def concatBuckets (counts : List Nat) (l : List (String × Nat)) :
    List (String × Nat) :=
  match counts with
  | [] => []
  | c :: cs => l.filter (fun p => p.2 = c) ++ concatBuckets cs l

/-- Spec-side ranking: entries ordered by occurrence count descending, equal
counts in their original (first-seen) order. -/
def specRankDesc (counter : List (String × Nat)) : List (String × Nat) :=
  concatBuckets (List.range (maxCount counter + 1)).reverse counter

/-- Spec-side: the substring of a full repository name before the first
slash, or the empty string when no slash is present. -/
def specOwnerOf (fullName : String) : String :=
  if fullName.data.contains '/' then
    String.mk (fullName.data.takeWhile (fun c => c ≠ '/'))
  else ""

/-! Small observation helpers and concrete inputs used in statements. -/

/-- Whether an `Except` computation succeeded. -/
def exceptOk {E A : Type} : Except E A → Bool
  | .ok _ => true
  | .error _ => false

/-- Whether a fetch outcome is a failure. -/
def fetchIsError (r : Except PyError (List GitHubEvent)) : Bool :=
  !(exceptOk r)

/-- Whether a fetch outcome stays inside the documented error taxonomy;
a success is vacuously compliant. -/
def fetchErrInTaxonomy : Except PyError (List GitHubEvent) → Bool
  | .error e => e.inTaxonomy
  | .ok _ => true

/-- Whether a fetch outcome is a RateLimited failure. -/
def fetchIsRateLimited : Except PyError (List GitHubEvent) → Bool
  | .error (.rateLimited _) => true
  | _ => false

/-- Generic first-match association lookup, used to reason about the
insertion-ordered dicts of the aggregation service. -/
def assocGet {A : Type} (d : List (String × A)) (k : String) : Option A :=
  match d with
  | [] => none
  | (k', a) :: rest => if k' = k then some a else assocGet rest k

/-- A 2xx response whose JSON body holds one malformed event record (the
required `type` field is missing). -/
def malformedEventsResponse : HttpResponse :=
  ⟨200, [], .arr [Json.obj [("id", .num 1)]]⟩

/-- A 429 response whose Retry-After header is not an integer literal. -/
def nonNumericRetryResponse : HttpResponse :=
  ⟨429, [("Retry-After", "soon")], .arr []⟩

/-- A 2xx response with an empty, well-formed event list. -/
def emptyEventsResponse : HttpResponse :=
  ⟨200, [], .arr []⟩

/-- A cache holding one already-expired entry (expiry 5) under the key of
user alice. -/
def expiredEntryCache : TTLCache (List GitHubEvent) :=
  ⟨[("github_events:alice", ([], 5))], 60, 10⟩

/-- A cache holding one live entry (expiry 100) under the key of user bob. -/
def liveEntryCache : TTLCache (List GitHubEvent) :=
  ⟨[("github_events:bob", ([], 100))], 60, 10⟩

/-- An empty events cache with ttl 60 and room for two entries. -/
def emptyEventsCache : TTLCache (List GitHubEvent) :=
  ⟨[], 60, 2⟩

/-- A sample event on repository "a/r1" with the given activity type. -/
def sampleEventR1 (ty : String) : GitHubEvent :=
  ⟨1, ty, ⟨"alice", 1⟩, ⟨11, "a/r1", "https://example.com/a/r1"⟩,
    ⟨2026, 1, 15, 10, 30, 0, some 0⟩⟩

/-- A sample event on repository "b/r2" with the given activity type. -/
def sampleEventR2 (ty : String) : GitHubEvent :=
  ⟨2, ty, ⟨"alice", 1⟩, ⟨12, "b/r2", "https://example.com/b/r2"⟩,
    ⟨2026, 1, 15, 11, 0, 0, some 0⟩⟩

/-- The sample event list of the spec's grouping property: two Push events on
"a/r1" and one Pull event on "b/r2". -/
def sampleEvents : List GitHubEvent :=
  [sampleEventR1 "PushEvent", sampleEventR1 "PushEvent", sampleEventR2 "PullRequestEvent"]

/-- The claim's eviction scenario: an empty cache with ttl 60 and max_size 2,
then key1, key2, key3 set at the ascending times 0, 1, 2. -/
def ttlScenarioCache : TTLCache Nat :=
  TTLCache.set 2 (TTLCache.set 1 (TTLCache.set 0 ⟨[], 60, 2⟩ "key1" 1) "key2" 2) "key3" 3

/-- A full two-entry cache (max_size 2) whose oldest expiry is under key "b". -/
def twoEntryCache : TTLCache Nat :=
  ⟨[("a", 1, 100), ("b", 2, 50)], 60, 2⟩

/-! Helper lemmas about the dict model. -/

theorem dictGet_eq_none_iff {V : Type} (d : CacheDict V) (k : String) :
    dictGet d k = none ↔ k ∉ d.map Prod.fst := by
  induction d with
  | nil => simp [dictGet]
  | cons e rest ih =>
    obtain ⟨k', v⟩ := e
    by_cases h : k' = k
    · subst h; simp [dictGet]
    · simp [dictGet, h, ih, Ne.symm h]

theorem mem_of_dictGet_some {V : Type} {d : CacheDict V} {k : String} {e : V × Int}
    (h : dictGet d k = some e) : (k, e) ∈ d := by
  induction d with
  | nil => simp [dictGet] at h
  | cons e' rest ih =>
    obtain ⟨k', v⟩ := e'
    by_cases hk : k' = k
    · subst hk
      have hv : v = e := by simpa [dictGet] using h
      subst hv; exact List.mem_cons_self _ _
    · simp only [dictGet, if_neg hk] at h
      exact List.mem_cons_of_mem _ (ih h)

theorem mem_map_fst_of_dictGet_some {V : Type} {d : CacheDict V} {k : String}
    {e : V × Int} (h : dictGet d k = some e) : k ∈ d.map Prod.fst := by
  have := mem_of_dictGet_some h
  exact List.mem_map.2 ⟨(k, e), this, rfl⟩

theorem map_fst_filter_sublist {V : Type} (d : CacheDict V) (p : String × V × Int → Bool) :
    ((d.filter p).map Prod.fst).Sublist (d.map Prod.fst) :=
  (List.filter_sublist d).map Prod.fst

theorem nodup_filter_keys {V : Type} {d : CacheDict V} (p : String × V × Int → Bool)
    (h : (d.map Prod.fst).Nodup) : (((d.filter p).map Prod.fst)).Nodup :=
  (map_fst_filter_sublist d p).nodup h

theorem dictGet_filter_expiry {V : Type} {d : CacheDict V} (k : String) (now : Int)
    (h : (d.map Prod.fst).Nodup) :
    dictGet (d.filter (fun e => now < e.2.2)) k =
      match dictGet d k with
      | some (v, x) => if now < x then some (v, x) else none
      | none => none := by
  induction d with
  | nil => simp [dictGet]
  | cons e rest ih =>
    obtain ⟨k', v, x⟩ := e
    simp only [List.map_cons, List.nodup_cons] at h
    by_cases hk : k' = k
    · subst hk
      by_cases hx : now < x
      · simp [dictGet, List.filter_cons, hx]
      · have hnone : dictGet (rest.filter (fun e => now < e.2.2)) k' = none := by
          rw [dictGet_eq_none_iff]
          intro hmem
          exact h.1 ((map_fst_filter_sublist rest _).mem hmem)
        simp [dictGet, List.filter_cons, hx, hnone]
    · by_cases hx : now < x <;>
        simp [dictGet, List.filter_cons, hx, hk, ih h.2]

theorem dictGet_dictSet_self {V : Type} (d : CacheDict V) (k : String) (e : V × Int) :
    dictGet (dictSet d k e) k = some e := by
  induction d with
  | nil => simp [dictSet, dictGet]
  | cons e' rest ih =>
    obtain ⟨k', v⟩ := e'
    by_cases hk : k' = k <;> simp [dictSet, dictGet, hk, ih]

theorem map_fst_dictSet {V : Type} (d : CacheDict V) (k : String) (e : V × Int) :
    (dictSet d k e).map Prod.fst =
      if k ∈ d.map Prod.fst then d.map Prod.fst else d.map Prod.fst ++ [k] := by
  induction d with
  | nil => simp [dictSet]
  | cons e' rest ih =>
    obtain ⟨k', v⟩ := e'
    by_cases hk : k' = k
    · subst hk; simp [dictSet]
    · by_cases hmem : k ∈ rest.map Prod.fst <;>
        simp [dictSet, hk, ih, hmem, Ne.symm hk]

theorem nodup_dictSet {V : Type} {d : CacheDict V} (k : String) (e : V × Int)
    (h : (d.map Prod.fst).Nodup) : ((dictSet d k e).map Prod.fst).Nodup := by
  rw [map_fst_dictSet]
  by_cases hmem : k ∈ d.map Prod.fst
  · simpa [hmem]
  · simp only [hmem, if_false]
    rw [← List.concat_eq_append]
    exact h.concat hmem

theorem length_dictSet {V : Type} (d : CacheDict V) (k : String) (e : V × Int) :
    (dictSet d k e).length =
      if (dictGet d k).isSome then d.length else d.length + 1 := by
  induction d with
  | nil => simp [dictSet, dictGet]
  | cons e' rest ih =>
    obtain ⟨k', v⟩ := e'
    by_cases hk : k' = k
    · subst hk; simp [dictSet, dictGet]
    · by_cases hs : (dictGet rest k).isSome <;>
        simp [dictSet, dictGet, hk, ih, hs]

theorem dictDel_sublist {V : Type} (d : CacheDict V) (k : String) :
    (dictDel d k).Sublist d := by
  induction d with
  | nil => simp [dictDel]
  | cons e' rest ih =>
    obtain ⟨k', v⟩ := e'
    by_cases hk : k' = k
    · rw [dictDel, if_pos hk]
      exact List.sublist_cons_self _ _
    · rw [dictDel, if_neg hk]
      exact ih.cons₂ (k', v)

theorem nodup_dictDel {V : Type} {d : CacheDict V} (k : String)
    (h : (d.map Prod.fst).Nodup) : ((dictDel d k).map Prod.fst).Nodup :=
  ((dictDel_sublist d k).map Prod.fst).nodup h

theorem length_dictDel_of_mem {V : Type} {d : CacheDict V} {k : String}
    (h : k ∈ d.map Prod.fst) : (dictDel d k).length + 1 = d.length := by
  induction d with
  | nil => simp at h
  | cons e' rest ih =>
    obtain ⟨k', v⟩ := e'
    by_cases hk : k' = k
    · simp [dictDel, hk]
    · have : k ∈ rest.map Prod.fst := by
        rcases List.mem_cons.1 h with h1 | h1
        · exact absurd h1.symm hk
        · exact h1
      simp [dictDel, hk, ih this]

theorem dictGet_dictDel_of_none {V : Type} {d : CacheDict V} {k k' : String}
    (h : dictGet d k = none) : dictGet (dictDel d k') k = none := by
  rw [dictGet_eq_none_iff] at h ⊢
  intro hmem
  exact h (((dictDel_sublist d k').map Prod.fst).mem hmem)

theorem minExpiryEntry_spec {V : Type} {d : CacheDict V} (h : d ≠ []) :
    ∃ e, minExpiryEntry d = some e ∧ e ∈ d ∧ ∀ q ∈ d, e.2.2 ≤ q.2.2 := by
  induction d with
  | nil => exact absurd rfl h
  | cons e rest ih =>
    cases hrest : rest with
    | nil =>
      subst hrest
      exact ⟨e, by simp [minExpiryEntry], by simp, by simp⟩
    | cons r rs =>
      have hne : rest ≠ [] := by simp [hrest]
      obtain ⟨m, hm, hmem, hmin⟩ := ih hne
      rw [← hrest] at *
      by_cases hlt : m.2.2 < e.2.2
      · refine ⟨m, by simp [minExpiryEntry, hm, hlt], List.mem_cons_of_mem _ hmem, ?_⟩
        intro q hq
        rcases List.mem_cons.1 hq with h1 | h1
        · subst h1; exact le_of_lt hlt
        · exact hmin q h1
      · refine ⟨e, by simp [minExpiryEntry, hm, hlt], List.mem_cons_self _ _, ?_⟩
        intro q hq
        rcases List.mem_cons.1 hq with h1 | h1
        · subst h1; exact le_refl _
        · exact le_trans (not_lt.1 hlt) (hmin q h1)

/-! Helper lemmas about the cache operations. -/

theorem evictExpired_ttl {V : Type} (now : Int) (c : TTLCache V) :
    (evictExpired now c).ttl_seconds = c.ttl_seconds := rfl

theorem evictExpired_max {V : Type} (now : Int) (c : TTLCache V) :
    (evictExpired now c).max_size = c.max_size := rfl

theorem evictExpired_cache {V : Type} (now : Int) (c : TTLCache V) :
    (evictExpired now c).cache = c.cache.filter (fun e => now < e.2.2) := rfl

theorem evictOldest_ttl {V : Type} (c : TTLCache V) :
    (evictOldest c).ttl_seconds = c.ttl_seconds := by
  unfold evictOldest; split <;> rfl

theorem evictOldest_max {V : Type} (c : TTLCache V) :
    (evictOldest c).max_size = c.max_size := by
  unfold evictOldest; split <;> rfl

theorem nodup_evictExpired {V : Type} (now : Int) {c : TTLCache V}
    (h : (c.cache.map Prod.fst).Nodup) :
    ((evictExpired now c).cache.map Prod.fst).Nodup :=
  nodup_filter_keys _ h

theorem nodup_evictOldest {V : Type} {c : TTLCache V}
    (h : (c.cache.map Prod.fst).Nodup) :
    ((evictOldest c).cache.map Prod.fst).Nodup := by
  unfold evictOldest; split
  · exact nodup_dictDel _ h
  · exact h

theorem set_ttl {V : Type} (now : Int) (c : TTLCache V) (key : String) (v : V) :
    (TTLCache.set now c key v).ttl_seconds = c.ttl_seconds := by
  unfold TTLCache.set
  dsimp only
  split <;> simp [evictOldest_ttl, evictExpired_ttl]

theorem set_max {V : Type} (now : Int) (c : TTLCache V) (key : String) (v : V) :
    (TTLCache.set now c key v).max_size = c.max_size := by
  unfold TTLCache.set
  dsimp only
  split <;> simp [evictOldest_max, evictExpired_max]

theorem set_cache_eq {V : Type} (now : Int) (c : TTLCache V) (key : String) (v : V) :
    (TTLCache.set now c key v).cache =
      dictSet (if c.max_size ≤ ((evictExpired now c).cache.length : Int) ∧
                  (dictGet (evictExpired now c).cache key).isNone
                then evictOldest (evictExpired now c)
                else evictExpired now c).cache
        key (v, now + c.ttl_seconds) := by
  unfold TTLCache.set
  dsimp only
  split
  · next hcond =>
    rw [if_pos (by simpa [evictExpired_max] using hcond)]
    simp [evictOldest_ttl, evictExpired_ttl]
  · next hcond =>
    rw [if_neg (by simpa [evictExpired_max] using hcond)]
    simp [evictExpired_ttl]

theorem nodup_set {V : Type} (now : Int) {c : TTLCache V} (key : String) (v : V)
    (h : (c.cache.map Prod.fst).Nodup) :
    ((TTLCache.set now c key v).cache.map Prod.fst).Nodup := by
  rw [set_cache_eq]
  split
  · exact nodup_dictSet _ _ (nodup_evictOldest (nodup_evictExpired now h))
  · exact nodup_dictSet _ _ (nodup_evictExpired now h)

theorem get_fst_eq {V : Type} (now : Int) (c : TTLCache V) (key : String)
    (h : (c.cache.map Prod.fst).Nodup) :
    (TTLCache.get now c key).1 =
      match dictGet c.cache key with
      | some (v, x) => if now < x then some v else none
      | none => none := by
  unfold TTLCache.get
  have hf := dictGet_filter_expiry (d := c.cache) key now h
  simp only [evictExpired_cache]
  rw [hf]
  cases hd : dictGet c.cache key with
  | none => simp
  | some e =>
    obtain ⟨v, x⟩ := e
    by_cases hx : now < x <;> simp [hx]

theorem get_snd_eq {V : Type} (now : Int) (c : TTLCache V) (key : String) :
    (TTLCache.get now c key).2 = evictExpired now c := by
  unfold TTLCache.get
  cases hd : dictGet (evictExpired now c).cache key with
  | none => simp [hd]
  | some e =>
    obtain ⟨v, x⟩ := e
    have hmem : (key, v, x) ∈ (evictExpired now c).cache := mem_of_dictGet_some hd
    rw [evictExpired_cache] at hmem
    have hx : now < x := by
      have := List.of_mem_filter hmem
      simpa using this
    simp [hd, hx]

theorem get_after_set {V : Type} (now t1 : Int) (c : TTLCache V) (key : String) (v : V)
    (h : (c.cache.map Prod.fst).Nodup) :
    (TTLCache.get t1 (TTLCache.set now c key v) key).1 =
      if t1 < now + c.ttl_seconds then some v else none := by
  rw [get_fst_eq t1 _ key (nodup_set now key v h)]
  rw [set_cache_eq]
  rw [dictGet_dictSet_self]

theorem applyOp_max {V : Type} (c : TTLCache V) (op : CacheOp V) :
    (applyOp c op).max_size = c.max_size := by
  cases op with
  | get now key => rw [applyOp, get_snd_eq]; rfl
  | set now key v => exact set_max now c key v
  | clear => rfl

theorem applyOp_length_le {V : Type} {c : TTLCache V} (op : CacheOp V)
    (hm : 0 < c.max_size) (h : (c.cache.length : Int) ≤ c.max_size) :
    ((applyOp c op).cache.length : Int) ≤ c.max_size := by
  have hslen : ∀ now : Int,
      ((evictExpired now c).cache.length : Int) ≤ (c.cache.length : Int) := by
    intro now
    rw [evictExpired_cache]
    exact_mod_cast List.length_filter_le _ _
  cases op with
  | clear =>
    simp only [applyOp, TTLCache.clear, List.length_nil, Int.ofNat_eq_coe, Nat.cast_zero]
    omega
  | get now key =>
    rw [applyOp, get_snd_eq]
    exact le_trans (hslen now) h
  | set now key v =>
    rw [applyOp, set_cache_eq]
    split
    · next hcond =>
      obtain ⟨hge, hnone⟩ := hcond
      have hne : (evictExpired now c).cache ≠ [] := by
        intro hnil
        rw [hnil] at hge
        simp at hge
        omega
      obtain ⟨e, heq, hmem, _⟩ := minExpiryEntry_spec hne
      have hdel : dictGet (evictOldest (evictExpired now c)).cache key = none := by
        unfold evictOldest
        rw [heq]
        exact dictGet_dictDel_of_none (Option.isNone_iff_eq_none.1 hnone)
      have hlen1 : (evictOldest (evictExpired now c)).cache.length + 1 =
          (evictExpired now c).cache.length := by
        unfold evictOldest
        rw [heq]
        exact length_dictDel_of_mem (List.mem_map.2 ⟨e, hmem, rfl⟩)
      rw [length_dictSet, hdel]
      simp only [Option.isSome_none, Bool.false_eq_true, if_false]
      have := hslen now
      push_cast
      omega
    · next hcond =>
      rw [length_dictSet]
      by_cases hs : (dictGet (evictExpired now c).cache key).isSome
      · rw [if_pos hs]
        exact le_trans (hslen now) h
      · have hlt : ¬(c.max_size ≤ ((evictExpired now c).cache.length : Int)) := by
          intro hge
          exact hcond ⟨hge, by simp [Option.isNone_iff_eq_none,
            Option.not_isSome_iff_eq_none.1 hs]⟩
        rw [if_neg hs]
        push_cast
        omega

theorem applyOps_invariant {V : Type} (max : Int) (hm : 0 < max)
    (ops : List (CacheOp V)) :
    ∀ c : TTLCache V, c.max_size = max → (c.cache.length : Int) ≤ max →
      ((applyOps c ops).cache.length : Int) ≤ max ∧ (applyOps c ops).max_size = max := by
  induction ops with
  | nil => intro c h1 h2; exact ⟨h2, h1⟩
  | cons op rest ih =>
    intro c h1 h2
    have hmax : (applyOp c op).max_size = max := by rw [applyOp_max, h1]
    have hlen : ((applyOp c op).cache.length : Int) ≤ max := by
      rw [← h1]
      exact applyOp_length_le op (by rw [h1]; exact hm) (by rw [h1]; exact h2)
    exact ih (applyOp c op) hmax hlen

theorem mem_keys_of_get_isSome {V : Type} {now : Int} {c : TTLCache V} {k : String}
    (h : (TTLCache.get now c k).1.isSome = true) : k ∈ c.cache.map Prod.fst := by
  unfold TTLCache.get at h
  dsimp only at h
  cases hd : dictGet (evictExpired now c).cache k with
  | none => rw [hd] at h; simp at h
  | some e =>
    have hk : k ∈ (evictExpired now c).cache.map Prod.fst := mem_map_fst_of_dictGet_some hd
    rw [evictExpired_cache] at hk
    exact (map_fst_filter_sublist c.cache _).mem hk

/-! Claim theorems for the cache. -/

/-- C5: the cache's get returns the stored value exactly when the entry's
expiry has not passed (`now < expiresAt`) and absent otherwise; and a value
set at time T0 is retrievable at any time strictly before T0 + ttl and
absent at any time at or after T0 + ttl. -/
theorem c5_ttl_visibility :
    (∀ (V : Type) (c : TTLCache V) (key : String) (now : Int),
      (c.cache.map Prod.fst).Nodup →
      (TTLCache.get now c key).1 =
        match dictGet c.cache key with
        | some (v, expiresAt) => if now < expiresAt then some v else none
        | none => none) ∧
    (∀ (V : Type) (c : TTLCache V) (key : String) (v : V) (t0 t1 : Int),
      (c.cache.map Prod.fst).Nodup →
      (TTLCache.get t1 (TTLCache.set t0 c key v) key).1 =
        if t1 < t0 + c.ttl_seconds then some v else none) :=
  ⟨fun _ c key now h => get_fst_eq now c key h,
   fun _ c key v t0 t1 h => get_after_set t0 t1 c key v h⟩

/-- C5 witness: a live entry is visible, and a freshly set value is visible
one tick before its expiry. -/
theorem c5_ttl_visibility_witness :
    ((([("k", 1, 10)] : CacheDict Nat).map Prod.fst).Nodup ∧
      (TTLCache.get 3 (⟨[("k", 1, 10)], 60, 2⟩ : TTLCache Nat) "k").1 =
        match dictGet ([("k", 1, 10)] : CacheDict Nat) "k" with
        | some (v, expiresAt) => if (3 : Int) < expiresAt then some v else none
        | none => none) ∧
    ((([] : CacheDict Nat).map Prod.fst).Nodup ∧
      (TTLCache.get 59 (TTLCache.set 0 (⟨[], 60, 2⟩ : TTLCache Nat) "k" 5) "k").1 =
        if (59 : Int) < 0 + (⟨[], 60, 2⟩ : TTLCache Nat).ttl_seconds then some 5 else none) :=
  ⟨⟨by decide, c5_ttl_visibility.1 Nat ⟨[("k", 1, 10)], 60, 2⟩ "k" 3 (by decide)⟩,
   ⟨by decide, c5_ttl_visibility.2 Nat ⟨[], 60, 2⟩ "k" 5 0 59 (by decide)⟩⟩

/-- C9 counterexample: constructing the cache with ttl_seconds = 0 and
max_size = 0 succeeds — `TTLCache.__init__` performs no validation, so the
claim that such construction fails is false on the code. -/
theorem c9_counterexample : exceptOk (TTLCache.init Nat 0 0) = true := rfl

/-- C9 (amended): cache construction itself never fails, whatever the
parameter values; the positivity validation lives in the configuration
layer — `Settings.validate_positive_int` accepts exactly the positive
values, so a Settings-level ttl or max size of zero or less fails there. -/
theorem c9_validation_at_config :
    (∀ (V : Type) (t m : Int), TTLCache.init V t m = .ok ⟨[], t, m⟩) ∧
    (∀ v : Int, exceptOk (validatePositiveInt v) = true ↔ 0 < v) := by
  constructor
  · intro V t m; rfl
  · intro v
    by_cases h : v ≤ 0
    · simp [validatePositiveInt, exceptOk, h]
    · simp [validatePositiveInt, exceptOk, h]
      omega

/-- C4: in the cache's set, after the expiry sweep, when the dict holds
max_size or more entries and the key is new, exactly one entry — one with
the smallest expiry timestamp — is evicted before insertion; concretely,
with max_size 2 and ascending insertion times, setting key1 then key2 then
key3 leaves key1 absent and key2, key3 present. -/
theorem c4_eviction_smallest_expiry :
    (∀ (V : Type) (now : Int) (c : TTLCache V) (key : String) (v : V),
      0 < c.max_size →
      c.max_size ≤ ((evictExpired now c).cache.length : Int) →
      dictGet (evictExpired now c).cache key = none →
      ∃ e : String × V × Int,
        minExpiryEntry (evictExpired now c).cache = some e ∧
        e ∈ (evictExpired now c).cache ∧
        (∀ q ∈ (evictExpired now c).cache, e.2.2 ≤ q.2.2) ∧
        (dictDel (evictExpired now c).cache e.1).length + 1 =
          (evictExpired now c).cache.length ∧
        (TTLCache.set now c key v).cache =
          dictSet (dictDel (evictExpired now c).cache e.1) key (v, now + c.ttl_seconds)) ∧
    ((TTLCache.get 3 ttlScenarioCache "key1").1 = none ∧
     (TTLCache.get 3 ttlScenarioCache "key2").1 = some 2 ∧
     (TTLCache.get 3 ttlScenarioCache "key3").1 = some 3) := by
  constructor
  · intro V now c key v hm hlen hget
    have hne : (evictExpired now c).cache ≠ [] := by
      intro hnil
      rw [hnil] at hlen
      simp at hlen
      omega
    obtain ⟨e, heq, hmem, hmin⟩ := minExpiryEntry_spec hne
    refine ⟨e, heq, hmem, hmin, ?_, ?_⟩
    · exact length_dictDel_of_mem (List.mem_map.2 ⟨e, hmem, rfl⟩)
    · rw [set_cache_eq, if_pos ⟨hlen, by simp [hget]⟩]
      unfold evictOldest
      rw [heq]
  · exact ⟨by decide, by decide, by decide⟩

/-- C4 witness: on a full two-entry cache the entry with the smallest
expiry (under key "b") is the eviction target. -/
theorem c4_eviction_smallest_expiry_witness :
    (0 < twoEntryCache.max_size ∧
     twoEntryCache.max_size ≤ ((evictExpired 0 twoEntryCache).cache.length : Int) ∧
     dictGet (evictExpired 0 twoEntryCache).cache "c" = none) ∧
    (∃ e : String × Nat × Int,
      minExpiryEntry (evictExpired 0 twoEntryCache).cache = some e ∧
      e ∈ (evictExpired 0 twoEntryCache).cache ∧
      (∀ q ∈ (evictExpired 0 twoEntryCache).cache, e.2.2 ≤ q.2.2) ∧
      (dictDel (evictExpired 0 twoEntryCache).cache e.1).length + 1 =
        (evictExpired 0 twoEntryCache).cache.length ∧
      (TTLCache.set 0 twoEntryCache "c" 3).cache =
        dictSet (dictDel (evictExpired 0 twoEntryCache).cache e.1) "c"
          (3, 0 + twoEntryCache.ttl_seconds)) :=
  ⟨⟨by decide, by decide, by decide⟩,
   c4_eviction_smallest_expiry.1 Nat 0 twoEntryCache "c" 3 (by decide) (by decide) (by decide)⟩

/-- C6: starting from an empty cache with positive max_size, no sequence of
get / set / clear operations makes the entry count exceed max_size, and at
any instant get succeeds for at most max_size distinct keys. -/
theorem c6_size_never_exceeds_max :
    ∀ (V : Type) (ttl max_size : Int) (ops : List (CacheOp V)) (now : Int)
      (ks : List String),
      0 < max_size →
      ks.Nodup →
      (∀ k ∈ ks, (TTLCache.get now (applyOps ⟨[], ttl, max_size⟩ ops) k).1.isSome = true) →
      ((applyOps ⟨[], ttl, max_size⟩ ops).cache.length : Int) ≤ max_size ∧
      (ks.length : Int) ≤ max_size := by
  intro V ttl max_size ops now ks hm hnd hall
  have hinv := applyOps_invariant max_size hm ops ⟨[], ttl, max_size⟩ rfl
    (by simpa using hm.le)
  refine ⟨hinv.1, ?_⟩
  have hsub : ∀ k ∈ ks, k ∈ (applyOps ⟨[], ttl, max_size⟩ ops).cache.map Prod.fst :=
    fun k hk => mem_keys_of_get_isSome (hall k hk)
  have h1 : ks.length ≤ (applyOps ⟨[], ttl, max_size⟩ ops).cache.length := by
    have hcard1 : ks.toFinset.card = ks.length := List.toFinset_card_of_nodup hnd
    have hcard2 : ks.toFinset ⊆
        ((applyOps ⟨[], ttl, max_size⟩ ops).cache.map Prod.fst).toFinset := by
      intro x hx
      rw [List.mem_toFinset] at hx ⊢
      exact hsub x hx
    calc ks.length = ks.toFinset.card := hcard1.symm
      _ ≤ ((applyOps ⟨[], ttl, max_size⟩ ops).cache.map Prod.fst).toFinset.card :=
          Finset.card_le_card hcard2
      _ ≤ ((applyOps ⟨[], ttl, max_size⟩ ops).cache.map Prod.fst).length :=
          List.toFinset_card_le _
      _ = (applyOps ⟨[], ttl, max_size⟩ ops).cache.length := List.length_map _ _
  calc (ks.length : Int) ≤ ((applyOps ⟨[], ttl, max_size⟩ ops).cache.length : Int) := by
        exact_mod_cast h1
    _ ≤ max_size := hinv.1

/-- C6 witness: three distinct keys set into a cache of max_size 2 leave at
most two entries, the two live keys. -/
theorem c6_size_never_exceeds_max_witness :
    (0 < (2 : Int) ∧
     (["key2", "key3"] : List String).Nodup ∧
     (∀ k ∈ (["key2", "key3"] : List String),
       (TTLCache.get 3 (applyOps (⟨[], 60, 2⟩ : TTLCache Nat)
         [.set 0 "key1" 1, .set 1 "key2" 2, .set 2 "key3" 3]) k).1.isSome = true)) ∧
    (((applyOps (⟨[], 60, 2⟩ : TTLCache Nat)
        [.set 0 "key1" 1, .set 1 "key2" 2, .set 2 "key3" 3]).cache.length : Int) ≤ 2 ∧
     ((["key2", "key3"] : List String).length : Int) ≤ 2) :=
  ⟨⟨by decide, by decide, by decide⟩,
   c6_size_never_exceeds_max Nat 60 2 [.set 0 "key1" 1, .set 1 "key2" 2, .set 2 "key3" 3]
     3 ["key2", "key3"] (by decide) (by decide) (by decide)⟩

/-! Helper lemmas about the upstream client. -/

theorem mapM_eventError {items : List Json} {j : Json} (hj : j ∈ items)
    (hfail : exceptOk (parseGitHubEvent j) = false) :
    exceptOk (items.mapM parseGitHubEvent) = false := by
  induction items with
  | nil => simp at hj
  | cons x xs ih =>
    rw [List.mapM_cons]
    rcases List.mem_cons.1 hj with h1 | h1
    · subst h1
      cases hx : parseGitHubEvent j with
      | error e => rfl
      | ok v => rw [hx] at hfail; simp [exceptOk] at hfail
    · cases hx : parseGitHubEvent x with
      | error e => rfl
      | ok v =>
        have hxs := ih h1
        cases hrest : xs.mapM parseGitHubEvent with
        | error e => rfl
        | ok l => rw [hrest] at hxs; simp [exceptOk] at hxs

theorem getUserEvents_hit (up : UpstreamResult) {now : Int}
    {c c1 : TTLCache (List GitHubEvent)} {u : String} {v : List GitHubEvent}
    (h : TTLCache.get now c (getCacheKey u) = (some v, c1)) :
    getUserEvents now up c u = ⟨.ok v, c1, 0⟩ := by
  unfold getUserEvents
  dsimp only
  rw [h]

theorem getUserEvents_miss (up : UpstreamResult) {now : Int}
    {c c1 : TTLCache (List GitHubEvent)} {u : String}
    (h : TTLCache.get now c (getCacheKey u) = (none, c1)) :
    getUserEvents now up c u =
      match fetchFromApi u up with
      | .ok evs => ⟨.ok evs, TTLCache.set now c1 (getCacheKey u) evs, 1⟩
      | .error e => ⟨.error e, c1, 1⟩ := by
  unfold getUserEvents
  dsimp only
  rw [h]

theorem get_of_dictGet_swept_none {V : Type} {now : Int} {c : TTLCache V} {key : String}
    (h : dictGet (evictExpired now c).cache key = none) :
    TTLCache.get now c key = (none, evictExpired now c) := by
  unfold TTLCache.get
  dsimp only
  rw [h]

theorem get_of_dictGet_swept_some {V : Type} {now : Int} {c : TTLCache V} {key : String}
    {v : V} {x : Int} (h : dictGet (evictExpired now c).cache key = some (v, x)) :
    TTLCache.get now c key = (some v, evictExpired now c) := by
  have hmem := mem_of_dictGet_some h
  rw [evictExpired_cache] at hmem
  have hx : now < x := by simpa using List.of_mem_filter hmem
  unfold TTLCache.get
  dsimp only
  rw [h]
  simp [hx]

/-! Claim theorems for the upstream client. -/

/-- C2 counterexample: a 2xx response whose body holds a malformed event
record (missing required `type` field) makes the fetch fail with an error
outside the UserNotFound / RateLimited / UpstreamError taxonomy, so the
claim that it fails with a GitHubAPIError is false on the code. -/
theorem c2_counterexample :
    fetchIsError (fetchFromApi "alice" (.response malformedEventsResponse)) = true ∧
    fetchErrInTaxonomy (fetchFromApi "alice" (.response malformedEventsResponse)) = false := by
  exact ⟨rfl, rfl⟩

/-- C2 (amended): a malformed event record in a 2xx body is never silently
skipped — the whole fetch fails — but the failure is an untyped pydantic
ValidationError that escapes the taxonomy, because the `except` clauses
catch only the httpx error types. -/
theorem c2_malformed_record_fails_untyped :
    (∀ (username : String) (r : HttpResponse) (msg : String),
      is2xx r.statusCode = true →
      parseEvents r.body = .error msg →
      fetchFromApi username (.response r) = .error (.validationError msg) ∧
      (PyError.validationError msg).inTaxonomy = false) ∧
    (∀ (items : List Json) (j : Json),
      j ∈ items →
      exceptOk (parseGitHubEvent j) = false →
      exceptOk (parseEvents (.arr items)) = false) := by
  constructor
  · intro username r msg h2xx hparse
    have h404 : r.statusCode ≠ 404 := by
      intro h
      rw [h] at h2xx
      simp [is2xx] at h2xx
    have h429 : r.statusCode ≠ 429 := by
      intro h
      rw [h] at h2xx
      simp [is2xx] at h2xx
    exact ⟨by simp [fetchFromApi, h404, h429, h2xx, hparse], rfl⟩
  · intro items j hj hfail
    simpa [parseEvents] using mapM_eventError hj hfail

/-- C2 witness: the malformed-record response instantiates both parts. -/
theorem c2_malformed_record_fails_untyped_witness :
    (is2xx malformedEventsResponse.statusCode = true ∧
     parseEvents malformedEventsResponse.body = .error "field required: type" ∧
     (fetchFromApi "alice" (.response malformedEventsResponse) =
        .error (.validationError "field required: type") ∧
      (PyError.validationError "field required: type").inTaxonomy = false)) ∧
    ((Json.obj [("id", .num 1)]) ∈ [Json.obj [("id", .num 1)]] ∧
     exceptOk (parseGitHubEvent (Json.obj [("id", .num 1)])) = false ∧
     exceptOk (parseEvents (.arr [Json.obj [("id", .num 1)]])) = false) :=
  ⟨⟨by decide, rfl,
    c2_malformed_record_fails_untyped.1 "alice" malformedEventsResponse
      "field required: type" (by decide) rfl⟩,
   ⟨by simp, rfl,
    c2_malformed_record_fails_untyped.2 [Json.obj [("id", .num 1)]]
      (Json.obj [("id", .num 1)]) (by simp) rfl⟩⟩

/-- C3 counterexample: a 429 response whose Retry-After header is not an
integer literal makes the fetch fail, but not with RateLimited — `int()`
raises an uncaught ValueError outside the taxonomy — so the claim that every
429 yields RateLimited is false on the code. -/
theorem c3_counterexample :
    fetchIsError (fetchFromApi "alice" (.response nonNumericRetryResponse)) = true ∧
    fetchIsRateLimited (fetchFromApi "alice" (.response nonNumericRetryResponse)) = false ∧
    fetchErrInTaxonomy (fetchFromApi "alice" (.response nonNumericRetryResponse)) = false := by
  exact ⟨rfl, rfl, rfl⟩

/-- C3 (amended): the fetch maps a 404 to UserNotFound with the username; a
429 to RateLimited with the integer Retry-After value, or zero when the
header is absent (a present but non-integer value instead escapes as an
untyped ValueError); any other non-2xx status to an UpstreamError carrying a
message and the status code; and a transport failure to an UpstreamError
carrying a message and no status code. -/
theorem c3_error_mapping :
    (∀ (u : String) (r : HttpResponse), r.statusCode = 404 →
      fetchFromApi u (.response r) = .error (.userNotFound u)) ∧
    (∀ (u : String) (r : HttpResponse), r.statusCode = 429 →
      headerGet r.headers "Retry-After" = none →
      fetchFromApi u (.response r) = .error (.rateLimited 0)) ∧
    (∀ (u : String) (r : HttpResponse) (s : String) (n : Int), r.statusCode = 429 →
      headerGet r.headers "Retry-After" = some s →
      pyIntOfString s = some n →
      fetchFromApi u (.response r) = .error (.rateLimited n)) ∧
    (∀ (u : String) (r : HttpResponse), r.statusCode ≠ 404 → r.statusCode ≠ 429 →
      is2xx r.statusCode = false →
      ∃ m, fetchFromApi u (.response r) = .error (.gitHubAPIError m (some r.statusCode))) ∧
    (∀ (u msg : String),
      ∃ m, fetchFromApi u (.transportError msg) = .error (.gitHubAPIError m none)) := by
  refine ⟨?_, ?_, ?_, ?_, ?_⟩
  · intro u r h
    simp [fetchFromApi, h]
  · intro u r h hh
    simp [fetchFromApi, h, hh]
  · intro u r s n h hh hs
    simp [fetchFromApi, h, hh, hs]
  · intro u r h404 h429 h2
    exact ⟨"GitHub API error: status " ++ toString r.statusCode,
      by simp [fetchFromApi, h404, h429, h2]⟩
  · intro u msg
    exact ⟨_, rfl⟩

/-- C3 witness: the five mappings at concrete responses. -/
theorem c3_error_mapping_witness :
    (((404 : Nat) = 404) ∧
     fetchFromApi "u" (.response ⟨404, [], .arr []⟩) = .error (.userNotFound "u")) ∧
    (((429 : Nat) = 429 ∧ headerGet ([] : List (String × String)) "Retry-After" = none) ∧
     fetchFromApi "u" (.response ⟨429, [], .arr []⟩) = .error (.rateLimited 0)) ∧
    (((429 : Nat) = 429 ∧ headerGet [("Retry-After", "60")] "Retry-After" = some "60" ∧
        pyIntOfString "60" = some 60) ∧
     fetchFromApi "u" (.response ⟨429, [("Retry-After", "60")], .arr []⟩) =
       .error (.rateLimited 60)) ∧
    (((500 : Nat) ≠ 404 ∧ (500 : Nat) ≠ 429 ∧ is2xx 500 = false) ∧
     ∃ m, fetchFromApi "u" (.response ⟨500, [], .arr []⟩) =
       .error (.gitHubAPIError m (some 500))) ∧
    (∃ m, fetchFromApi "u" (.transportError "boom") = .error (.gitHubAPIError m none)) :=
  ⟨⟨rfl, c3_error_mapping.1 "u" ⟨404, [], .arr []⟩ rfl⟩,
   ⟨⟨rfl, rfl⟩, c3_error_mapping.2.1 "u" ⟨429, [], .arr []⟩ rfl rfl⟩,
   ⟨⟨rfl, rfl, by decide⟩,
    c3_error_mapping.2.2.1 "u" ⟨429, [("Retry-After", "60")], .arr []⟩ "60" 60 rfl rfl
      (by decide)⟩,
   ⟨⟨by decide, by decide, by decide⟩,
    c3_error_mapping.2.2.2.1 "u" ⟨500, [], .arr []⟩ (by decide) (by decide) (by decide)⟩,
   c3_error_mapping.2.2.2.2 "u" "boom"⟩

/-- C7: a live cache entry under the username's key short-circuits the fetch
(the cached list is returned with zero upstream calls); a miss issues exactly
one upstream call and, on success, stores the events under the key with
expiry now + ttl; hence a second call within the TTL window returns the same
events with zero upstream calls. -/
theorem c7_cache_short_circuit :
    (∀ (now : Int) (up : UpstreamResult) (c : TTLCache (List GitHubEvent)) (u : String)
       (v : List GitHubEvent) (expiresAt : Int),
      (c.cache.map Prod.fst).Nodup →
      dictGet c.cache (getCacheKey u) = some (v, expiresAt) →
      now < expiresAt →
      (getUserEvents now up c u).result = .ok v ∧
      (getUserEvents now up c u).upstreamCalls = 0) ∧
    (∀ (now : Int) (up : UpstreamResult) (c : TTLCache (List GitHubEvent)) (u : String),
      dictGet (evictExpired now c).cache (getCacheKey u) = none →
      (getUserEvents now up c u).upstreamCalls = 1 ∧
      ∀ evs, fetchFromApi u up = .ok evs →
        (getUserEvents now up c u).result = .ok evs ∧
        dictGet (getUserEvents now up c u).cache.cache (getCacheKey u) =
          some (evs, now + c.ttl_seconds)) ∧
    (∀ (now t1 : Int) (up up' : UpstreamResult) (c : TTLCache (List GitHubEvent))
       (u : String) (evs : List GitHubEvent),
      (c.cache.map Prod.fst).Nodup →
      (getUserEvents now up c u).upstreamCalls = 1 →
      (getUserEvents now up c u).result = .ok evs →
      t1 < now + c.ttl_seconds →
      (getUserEvents t1 up' (getUserEvents now up c u).cache u).result = .ok evs ∧
      (getUserEvents t1 up' (getUserEvents now up c u).cache u).upstreamCalls = 0) := by
  refine ⟨?_, ?_, ?_⟩
  · intro now up c u v expiresAt hnd hd hlt
    have hfst : (TTLCache.get now c (getCacheKey u)).1 = some v := by
      rw [get_fst_eq now c (getCacheKey u) hnd, hd]
      simp [hlt]
    have hpair : TTLCache.get now c (getCacheKey u) =
        (some v, (TTLCache.get now c (getCacheKey u)).2) := by
      rw [← hfst]
    rw [getUserEvents_hit up hpair]
    exact ⟨rfl, rfl⟩
  · intro now up c u hd
    have hget := get_of_dictGet_swept_none hd
    constructor
    · rw [getUserEvents_miss up hget]
      cases hf : fetchFromApi u up <;> simp [hf]
    · intro evs hf
      rw [getUserEvents_miss up hget, hf]
      refine ⟨rfl, ?_⟩
      show dictGet (TTLCache.set now (evictExpired now c) (getCacheKey u) evs).cache
        (getCacheKey u) = some (evs, now + c.ttl_seconds)
      rw [set_cache_eq, dictGet_dictSet_self, evictExpired_ttl]
  · intro now t1 up up' c u evs hnd hcalls hres ht1
    cases hget : TTLCache.get now c (getCacheKey u) with
    | mk o c1 =>
      cases o with
      | some v =>
        rw [getUserEvents_hit up hget] at hcalls
        simp at hcalls
      | none =>
        have hc1 : c1 = evictExpired now c := by
          have := get_snd_eq now c (getCacheKey u)
          rw [hget] at this
          exact this
        subst hc1
        rw [getUserEvents_miss up hget] at hres ⊢
        cases hf : fetchFromApi u up with
        | error e => rw [hf] at hres; simp at hres
        | ok evs' =>
          rw [hf] at hres
          dsimp only at hres ⊢
          have hevs : evs' = evs := by simpa using hres
          subst hevs
          have hnd1 : ((evictExpired now c).cache.map Prod.fst).Nodup :=
            nodup_evictExpired now hnd
          have hhit : (TTLCache.get t1
              (TTLCache.set now (evictExpired now c) (getCacheKey u) evs')
              (getCacheKey u)).1 = some evs' := by
            rw [get_after_set now t1 _ (getCacheKey u) evs' hnd1]
            rw [evictExpired_ttl]
            simp [ht1]
          have hpair : TTLCache.get t1
              (TTLCache.set now (evictExpired now c) (getCacheKey u) evs')
              (getCacheKey u) =
              (some evs', (TTLCache.get t1
                (TTLCache.set now (evictExpired now c) (getCacheKey u) evs')
                (getCacheKey u)).2) := by
            rw [← hhit]
          rw [getUserEvents_hit up' hpair]
          exact ⟨rfl, rfl⟩

/-- C7 witness: a hit on a live entry, a miss populated by an empty 2xx
event list, and the second call within the TTL window. -/
theorem c7_cache_short_circuit_witness :
    (((liveEntryCache.cache.map Prod.fst).Nodup ∧
      dictGet liveEntryCache.cache (getCacheKey "bob") = some ([], 100) ∧
      (0 : Int) < 100) ∧
     ((getUserEvents 0 (.transportError "x") liveEntryCache "bob").result = .ok [] ∧
      (getUserEvents 0 (.transportError "x") liveEntryCache "bob").upstreamCalls = 0)) ∧
    ((dictGet (evictExpired 0 emptyEventsCache).cache (getCacheKey "bob") = none ∧
      fetchFromApi "bob" (.response emptyEventsResponse) = .ok []) ∧
     ((getUserEvents 0 (.response emptyEventsResponse) emptyEventsCache "bob").upstreamCalls = 1 ∧
      (getUserEvents 0 (.response emptyEventsResponse) emptyEventsCache "bob").result = .ok [] ∧
      dictGet (getUserEvents 0 (.response emptyEventsResponse) emptyEventsCache "bob").cache.cache
        (getCacheKey "bob") = some ([], 0 + emptyEventsCache.ttl_seconds))) ∧
    (((emptyEventsCache.cache.map Prod.fst).Nodup ∧
      (getUserEvents 0 (.response emptyEventsResponse) emptyEventsCache "bob").upstreamCalls = 1 ∧
      (getUserEvents 0 (.response emptyEventsResponse) emptyEventsCache "bob").result = .ok [] ∧
      (30 : Int) < 0 + emptyEventsCache.ttl_seconds) ∧
     ((getUserEvents 30 (.transportError "x")
         (getUserEvents 0 (.response emptyEventsResponse) emptyEventsCache "bob").cache
         "bob").result = .ok [] ∧
      (getUserEvents 30 (.transportError "x")
         (getUserEvents 0 (.response emptyEventsResponse) emptyEventsCache "bob").cache
         "bob").upstreamCalls = 0)) := by
  refine ⟨⟨⟨by decide, rfl, by decide⟩, ?_⟩, ⟨⟨rfl, rfl⟩, ?_⟩, ⟨⟨by decide, rfl, rfl, by decide⟩, ?_⟩⟩
  · exact c7_cache_short_circuit.1 0 (.transportError "x") liveEntryCache "bob" [] 100
      (by decide) rfl (by decide)
  · have h := c7_cache_short_circuit.2.1 0 (.response emptyEventsResponse) emptyEventsCache
      "bob" rfl
    exact ⟨h.1, (h.2 [] rfl).1, (h.2 [] rfl).2⟩
  · exact c7_cache_short_circuit.2.2 0 30 (.response emptyEventsResponse)
      (.transportError "x") emptyEventsCache "bob" [] (by decide) rfl rfl (by decide)

/-- C10 counterexample: with an already-expired entry under alice's key, a
failing fetch still removes that entry (the lazy expiry sweep inside the
cache get), so the cache entry for the key is not left exactly as it was. -/
theorem c10_counterexample :
    fetchIsError (getUserEvents 10 (.transportError "boom") expiredEntryCache "alice").result
      = true ∧
    dictGet expiredEntryCache.cache (getCacheKey "alice") = some ([], 5) ∧
    dictGet (getUserEvents 10 (.transportError "boom") expiredEntryCache "alice").cache.cache
      (getCacheKey "alice") = none := by
  exact ⟨rfl, rfl, rfl⟩

/-- C10 (amended): when the fetch fails, the cache after the call is exactly
the pre-call cache with expired entries swept — no entry is added or
refreshed, and the username's key is absent (a failing call implies there was
no live entry; an expired entry under the key is removed by the sweep). -/
theorem c10_populate_only_on_success :
    ∀ (now : Int) (up : UpstreamResult) (c : TTLCache (List GitHubEvent)) (u : String),
      fetchIsError (getUserEvents now up c u).result = true →
      (getUserEvents now up c u).cache = evictExpired now c ∧
      dictGet (getUserEvents now up c u).cache.cache (getCacheKey u) = none := by
  intro now up c u herr
  cases hd : dictGet (evictExpired now c).cache (getCacheKey u) with
  | some e =>
    obtain ⟨v, x⟩ := e
    rw [getUserEvents_hit up (get_of_dictGet_swept_some hd)] at herr
    simp [fetchIsError, exceptOk] at herr
  | none =>
    have hget := get_of_dictGet_swept_none hd
    rw [getUserEvents_miss up hget] at herr ⊢
    cases hf : fetchFromApi u up with
    | ok evs =>
      rw [hf] at herr
      simp [fetchIsError, exceptOk] at herr
    | error e =>
      exact ⟨rfl, hd⟩

/-- C10 witness: a transport failure on an empty cache leaves the swept
cache with no entry under the key. -/
theorem c10_populate_only_on_success_witness :
    (fetchIsError (getUserEvents 0 (.transportError "x") emptyEventsCache "carol").result
      = true) ∧
    ((getUserEvents 0 (.transportError "x") emptyEventsCache "carol").cache =
        evictExpired 0 emptyEventsCache ∧
     dictGet (getUserEvents 0 (.transportError "x") emptyEventsCache "carol").cache.cache
        (getCacheKey "carol") = none) :=
  ⟨rfl, c10_populate_only_on_success 0 (.transportError "x") emptyEventsCache "carol" rfl⟩

/-! Claim theorem for the ownership flag. -/

/-- C8: the ownership flag is true exactly when the owner derived from the
full repository name — the part before the first slash, or empty when there
is no slash — equals the username after both are lower-cased; in particular
repository "TestUser/repo" with username "testuser" is owned. -/
theorem c8_owner_lowercase_eq :
    (∀ (repo : GitHubRepositoryResponse) (username : String),
      isRepositoryOwner repo username = true ↔
        pyLower (specOwnerOf repo.full_name) = pyLower username) ∧
    isRepositoryOwner ⟨1, "TestUser/repo", "https://example.com"⟩ "testuser" = true := by
  constructor
  · intro repo username
    simp only [isRepositoryOwner, GitHubRepositoryResponse.owner, specOwnerOf,
      GitHubRepositoryResponse.full_name, containsSlash, beforeFirstSlash, beq_iff_eq]
  · decide

/-! Helper lemmas for the aggregation service: grouping. -/

theorem map_fst_addEventToGroups (gs : List (String × List GitHubEvent)) (k : String)
    (e : GitHubEvent) :
    (addEventToGroups gs k e).map Prod.fst =
      if k ∈ gs.map Prod.fst then gs.map Prod.fst else gs.map Prod.fst ++ [k] := by
  induction gs with
  | nil => simp [addEventToGroups]
  | cons g rest ih =>
    obtain ⟨k', es⟩ := g
    by_cases hk : k' = k
    · subst hk; simp [addEventToGroups]
    · by_cases hmem : k ∈ rest.map Prod.fst <;>
        simp [addEventToGroups, hk, ih, hmem, Ne.symm hk]

theorem foldl_groups_keys (es : List GitHubEvent) :
    ∀ gs : List (String × List GitHubEvent),
      (es.foldl (fun gs e => addEventToGroups gs e.repo.full_name e) gs).map Prod.fst =
        (es.map (fun e => e.repo.full_name)).foldl
          (fun acc s => if s ∈ acc then acc else acc ++ [s]) (gs.map Prod.fst) := by
  induction es with
  | nil => intro gs; simp
  | cons e rest ih =>
    intro gs
    simp only [List.foldl_cons, List.map_cons]
    rw [ih, map_fst_addEventToGroups]

theorem groupEventsByRepository_keys (events : List GitHubEvent) :
    (groupEventsByRepository events).map Prod.fst =
      specFirstSeen (events.map (fun e => e.repo.full_name)) := by
  unfold groupEventsByRepository specFirstSeen
  simpa using foldl_groups_keys events []

theorem specFirstSeen_step_nodup (l : List String) :
    ∀ acc : List String, acc.Nodup →
      (l.foldl (fun acc s => if s ∈ acc then acc else acc ++ [s]) acc).Nodup := by
  induction l with
  | nil => intro acc h; simpa
  | cons s rest ih =>
    intro acc h
    simp only [List.foldl_cons]
    by_cases hs : s ∈ acc
    · rw [if_pos hs]; exact ih acc h
    · rw [if_neg hs]
      refine ih _ ?_
      rw [← List.concat_eq_append]
      exact h.concat hs

theorem specFirstSeen_nodup (l : List String) : (specFirstSeen l).Nodup :=
  specFirstSeen_step_nodup l [] List.nodup_nil

theorem assocGet_of_mem_nodup {A : Type} {d : List (String × A)} {k : String} {a : A}
    (hnd : (d.map Prod.fst).Nodup) (hmem : (k, a) ∈ d) : assocGet d k = some a := by
  induction d with
  | nil => simp at hmem
  | cons g rest ih =>
    obtain ⟨k0, a0⟩ := g
    simp only [List.map_cons, List.nodup_cons] at hnd
    rcases List.mem_cons.1 hmem with h1 | h1
    · obtain ⟨hk, ha⟩ := Prod.mk.injEq .. ▸ h1
      subst hk; subst ha
      simp [assocGet]
    · by_cases hk : k0 = k
      · subst hk
        exact absurd (List.mem_map.2 ⟨(k0, a), h1, rfl⟩) hnd.1
      · simp only [assocGet, if_neg hk]
        exact ih hnd.2 h1

theorem assocGet_addEventToGroups (gs : List (String × List GitHubEvent)) (k k' : String)
    (e : GitHubEvent) :
    assocGet (addEventToGroups gs k e) k' =
      if k' = k then some ((assocGet gs k).getD [] ++ [e]) else assocGet gs k' := by
  induction gs with
  | nil =>
    by_cases h : k' = k
    · subst h; simp [addEventToGroups, assocGet]
    · simp [addEventToGroups, assocGet, h, Ne.symm h]
  | cons g rest ih =>
    obtain ⟨k0, es⟩ := g
    by_cases h0 : k0 = k
    · subst h0
      by_cases h' : k0 = k'
      · subst h'
        simp [addEventToGroups, assocGet]
      · simp [addEventToGroups, assocGet, h', Ne.symm h']
    · by_cases h' : k0 = k'
      · subst h'
        simp [addEventToGroups, assocGet, h0, Ne.symm h0]
      · simp [addEventToGroups, assocGet, h0, h', ih]

theorem foldl_groups_contents (es : List GitHubEvent) :
    ∀ (gs : List (String × List GitHubEvent)) (k : String),
      (assocGet (es.foldl (fun gs e => addEventToGroups gs e.repo.full_name e) gs) k).getD []
        = (assocGet gs k).getD [] ++ es.filter (fun e => e.repo.full_name = k) := by
  induction es with
  | nil => intro gs k; simp
  | cons e rest ih =>
    intro gs k
    simp only [List.foldl_cons]
    rw [ih, assocGet_addEventToGroups]
    by_cases hk : k = e.repo.full_name
    · rw [if_pos hk]
      simp only [Option.getD_some, List.filter_cons, hk]
      simp [List.append_assoc]
    · rw [if_neg hk]
      simp only [List.filter_cons]
      rw [if_neg (by simpa using fun hh => hk hh.symm)]

theorem group_contents {events : List GitHubEvent} {k : String} {l : List GitHubEvent}
    (hmem : (k, l) ∈ groupEventsByRepository events) :
    l = events.filter (fun e => e.repo.full_name = k) := by
  have hnd : ((groupEventsByRepository events).map Prod.fst).Nodup := by
    rw [groupEventsByRepository_keys]
    exact specFirstSeen_nodup _
  have hsome : assocGet (groupEventsByRepository events) k = some l :=
    assocGet_of_mem_nodup hnd hmem
  have hfold := foldl_groups_contents events [] k
  unfold groupEventsByRepository at hsome
  rw [hsome] at hfold
  simpa [assocGet] using hfold

/-! Helper lemmas for the aggregation service: the type counter. -/

theorem map_fst_addTypeToCounter (cnt : List (String × Nat)) (ty : String) :
    (addTypeToCounter cnt ty).map Prod.fst =
      if ty ∈ cnt.map Prod.fst then cnt.map Prod.fst else cnt.map Prod.fst ++ [ty] := by
  induction cnt with
  | nil => simp [addTypeToCounter]
  | cons g rest ih =>
    obtain ⟨t, n⟩ := g
    by_cases ht : t = ty
    · subst ht; simp [addTypeToCounter]
    · by_cases hmem : ty ∈ rest.map Prod.fst <;>
        simp [addTypeToCounter, ht, ih, hmem, Ne.symm ht]

theorem foldl_counter_keys (ts : List String) :
    ∀ cnt : List (String × Nat),
      (ts.foldl addTypeToCounter cnt).map Prod.fst =
        ts.foldl (fun acc s => if s ∈ acc then acc else acc ++ [s]) (cnt.map Prod.fst) := by
  induction ts with
  | nil => intro cnt; simp
  | cons t rest ih =>
    intro cnt
    simp only [List.foldl_cons]
    rw [ih, map_fst_addTypeToCounter]

theorem typeCounter_keys (ts : List String) :
    (typeCounter ts).map Prod.fst = specFirstSeen ts := by
  unfold typeCounter specFirstSeen
  simpa using foldl_counter_keys ts []

theorem assocGet_addTypeToCounter (cnt : List (String × Nat)) (ty t : String) :
    assocGet (addTypeToCounter cnt ty) t =
      if t = ty then some ((assocGet cnt ty).getD 0 + 1) else assocGet cnt t := by
  induction cnt with
  | nil =>
    by_cases h : t = ty
    · subst h; simp [addTypeToCounter, assocGet]
    · simp [addTypeToCounter, assocGet, h, Ne.symm h]
  | cons g rest ih =>
    obtain ⟨t0, n⟩ := g
    by_cases h0 : t0 = ty
    · subst h0
      by_cases h' : t0 = t
      · subst h'
        simp [addTypeToCounter, assocGet]
      · simp [addTypeToCounter, assocGet, h', Ne.symm h']
    · by_cases h' : t0 = t
      · subst h'
        simp [addTypeToCounter, assocGet, h0, Ne.symm h0]
      · simp [addTypeToCounter, assocGet, h0, h', ih]

theorem countOcc_cons (s t : String) (ts : List String) :
    countOcc t (s :: ts) = if s = t then countOcc t ts + 1 else countOcc t ts := by
  unfold countOcc
  rw [List.filter_cons]
  by_cases h : s = t <;> simp [h]

theorem foldl_counter_counts (ts : List String) :
    ∀ (cnt : List (String × Nat)) (t : String),
      (assocGet (ts.foldl addTypeToCounter cnt) t).getD 0 =
        (assocGet cnt t).getD 0 + countOcc t ts := by
  induction ts with
  | nil => intro cnt t; simp [countOcc]
  | cons s rest ih =>
    intro cnt t
    simp only [List.foldl_cons]
    rw [ih, assocGet_addTypeToCounter, countOcc_cons]
    by_cases h : s = t
    · subst h
      rw [if_pos rfl, if_pos rfl]
      simp
      omega
    · rw [if_neg (Ne.symm h), if_neg h]

theorem counter_counts {ts : List String} {t : String} {n : Nat}
    (hmem : (t, n) ∈ typeCounter ts) : n = countOcc t ts := by
  have hnd : ((typeCounter ts).map Prod.fst).Nodup := by
    rw [typeCounter_keys]
    exact specFirstSeen_nodup _
  have hsome : assocGet (typeCounter ts) t = some n := assocGet_of_mem_nodup hnd hmem
  have hfold := foldl_counter_counts ts [] t
  unfold typeCounter at hsome
  rw [hsome] at hfold
  simpa [assocGet] using hfold

theorem list_eq_map_of_snd_fn {B : Type} (l : List (String × B)) (f : String → B)
    (h : ∀ p ∈ l, p.2 = f p.1) :
    l = (l.map Prod.fst).map (fun k => (k, f k)) := by
  induction l with
  | nil => rfl
  | cons p rest ih =>
    obtain ⟨a, b⟩ := p
    simp only [List.map_cons]
    rw [← ih (fun q hq => h q (List.mem_cons_of_mem _ hq))]
    have hb : b = f a := h (a, b) (List.mem_cons_self _ _)
    rw [hb]

theorem typeCounter_eq_specTypeCounts (ts : List String) :
    typeCounter ts = specTypeCounts ts := by
  have h1 : ∀ p ∈ typeCounter ts, p.2 = countOcc p.1 ts := by
    intro p hp
    obtain ⟨a, b⟩ := p
    exact counter_counts hp
  rw [list_eq_map_of_snd_fn (typeCounter ts) (fun t => countOcc t ts) h1, typeCounter_keys]
  rfl

/-! Helper lemmas for the aggregation service: the stable count-descending
sort used by `most_common` equals the spec-side bucketed ranking. -/

theorem concatBuckets_nil_right (counts : List Nat) : concatBuckets counts [] = [] := by
  induction counts with
  | nil => rfl
  | cons c cs ih => simp [concatBuckets, ih]

theorem insertByCountDesc_append (p : String × Nat) (xs ys : List (String × Nat))
    (h : ∀ q ∈ xs, p.2 < q.2) :
    insertByCountDesc p (xs ++ ys) = xs ++ insertByCountDesc p ys := by
  induction xs with
  | nil => simp
  | cons x xs ih =>
    have hx : p.2 < x.2 := h x (List.mem_cons_self _ _)
    simp only [List.cons_append, insertByCountDesc, if_pos hx, List.append_eq]
    rw [ih (fun q hq => h q (List.mem_cons_of_mem _ hq))]

theorem insertByCountDesc_front (p : String × Nat) (L : List (String × Nat))
    (h : ∀ q ∈ L, q.2 ≤ p.2) :
    insertByCountDesc p L = p :: L := by
  cases L with
  | nil => rfl
  | cons q rest =>
    have hq : ¬p.2 < q.2 := not_lt.2 (h q (List.mem_cons_self _ _))
    simp [insertByCountDesc, hq]

theorem mem_concatBuckets {counts : List Nat} {l : List (String × Nat)}
    {q : String × Nat} (h : q ∈ concatBuckets counts l) : q ∈ l ∧ q.2 ∈ counts := by
  induction counts with
  | nil => simp [concatBuckets] at h
  | cons c cs ih =>
    rcases List.mem_append.1 h with h1 | h1
    · have hm := List.mem_filter.1 h1
      have hq : q.2 = c := by simpa using hm.2
      exact ⟨hm.1, by rw [hq]; exact List.mem_cons_self _ _⟩
    · obtain ⟨hql, hqc⟩ := ih h1
      exact ⟨hql, List.mem_cons_of_mem _ hqc⟩

theorem concatBuckets_cons_of_not_mem {counts : List Nat} {l : List (String × Nat)}
    {p : String × Nat} (h : p.2 ∉ counts) :
    concatBuckets counts (p :: l) = concatBuckets counts l := by
  induction counts with
  | nil => rfl
  | cons c cs ih =>
    have hc : ¬p.2 = c := fun hh => h (hh ▸ List.mem_cons_self _ _)
    have hcs : p.2 ∉ cs := fun hh => h (List.mem_cons_of_mem _ hh)
    simp only [concatBuckets, List.filter_cons]
    rw [if_neg (by simpa using hc), ih hcs]

theorem insert_concatBuckets {counts : List Nat}
    (hsort : counts.Pairwise (fun a b => b < a)) {p : String × Nat}
    (hp : p.2 ∈ counts) (t : List (String × Nat)) :
    insertByCountDesc p (concatBuckets counts t) = concatBuckets counts (p :: t) := by
  induction counts with
  | nil => simp at hp
  | cons c cs ih =>
    rw [List.pairwise_cons] at hsort
    by_cases hc : p.2 = c
    · have hfront : ∀ q ∈ t.filter (fun q => q.2 = c) ++ concatBuckets cs t, q.2 ≤ p.2 := by
        intro q hq
        rcases List.mem_append.1 hq with h1 | h1
        · have : q.2 = c := by simpa using (List.mem_filter.1 h1).2
          omega
        · have hqc : q.2 ∈ cs := (mem_concatBuckets h1).2
          have := hsort.1 _ hqc
          omega
      have hpcs : p.2 ∉ cs := by
        intro hh
        have := hsort.1 _ hh
        omega
      show insertByCountDesc p (t.filter (fun q => q.2 = c) ++ concatBuckets cs t) =
        (p :: t).filter (fun q => q.2 = c) ++ concatBuckets cs (p :: t)
      rw [insertByCountDesc_front _ _ hfront, List.filter_cons,
        if_pos (by simpa using hc), concatBuckets_cons_of_not_mem hpcs]
      rfl
    · have hpcs : p.2 ∈ cs := by
        rcases List.mem_cons.1 hp with h1 | h1
        · exact absurd h1 hc
        · exact h1
      have hclt : p.2 < c := hsort.1 _ hpcs
      have hskip : ∀ q ∈ t.filter (fun q => q.2 = c), p.2 < q.2 := by
        intro q hq
        have : q.2 = c := by simpa using (List.mem_filter.1 hq).2
        omega
      show insertByCountDesc p (t.filter (fun q => q.2 = c) ++ concatBuckets cs t) =
        (p :: t).filter (fun q => q.2 = c) ++ concatBuckets cs (p :: t)
      rw [insertByCountDesc_append _ _ _ hskip, List.filter_cons,
        if_neg (by simpa using hc), ih hsort.2 hpcs]

theorem sortByCountDesc_eq_concatBuckets {counts : List Nat}
    (hsort : counts.Pairwise (fun a b => b < a)) (l : List (String × Nat))
    (hall : ∀ q ∈ l, q.2 ∈ counts) :
    sortByCountDesc l = concatBuckets counts l := by
  induction l with
  | nil => rw [concatBuckets_nil_right]; rfl
  | cons p t ih =>
    simp only [sortByCountDesc]
    rw [ih (fun q hq => hall q (List.mem_cons_of_mem _ hq))]
    exact insert_concatBuckets hsort (hall p (List.mem_cons_self _ _)) t

theorem mem_le_maxCount {l : List (String × Nat)} {q : String × Nat} (h : q ∈ l) :
    q.2 ≤ maxCount l := by
  induction l with
  | nil => simp at h
  | cons p t ih =>
    rcases List.mem_cons.1 h with h1 | h1
    · subst h1
      exact le_max_left _ _
    · exact le_trans (ih h1) (le_max_right _ _)

theorem range_reverse_sorted_gt (n : Nat) :
    (List.range n).reverse.Pairwise (fun a b => b < a) := by
  rw [List.pairwise_reverse]
  exact List.pairwise_lt_range n

theorem sortByCountDesc_eq_specRankDesc (l : List (String × Nat)) :
    sortByCountDesc l = specRankDesc l := by
  unfold specRankDesc
  refine sortByCountDesc_eq_concatBuckets (range_reverse_sorted_gt _) l ?_
  intro q hq
  rw [List.mem_reverse, List.mem_range]
  exact Nat.lt_succ_of_le (mem_le_maxCount hq)

theorem getTopActivityTypes_eq (l : List GitHubEvent) :
    getTopActivityTypes l 3 =
      ((specRankDesc (specTypeCounts (l.map (fun e => e.type)))).take 3).map
        (fun p => ActivityType.mk p.1 p.2) := by
  cases l with
  | nil =>
    simp [getTopActivityTypes, specTypeCounts, specFirstSeen, specRankDesc,
      concatBuckets_nil_right]
  | cons e t =>
    unfold getTopActivityTypes mostCommon
    rw [typeCounter_eq_specTypeCounts, sortByCountDesc_eq_specRankDesc]

/-! Claim theorem for the aggregation algorithm. -/

/-- C1: the analyze aggregation lists repositories in the order each
distinct repository full name is first encountered in the events, and each
repository's top activity types are the types of its group of events (the
events whose repository full name is that summary's name) with their
occurrence counts, ranked by count descending with ties in first-seen order,
truncated to at most 3 entries. -/
theorem c1_grouping_and_ranking :
    ∀ (events : List GitHubEvent) (username : String),
      ((analyzeEvents events username).repositories.map (fun r => r.repository_name) =
        specFirstSeen (events.map (fun e => e.repo.full_name))) ∧
      (∀ i : Nat, ∀ h : i < (analyzeEvents events username).repositories.length,
        ((analyzeEvents events username).repositories[i]).top_activity_types =
          ((specRankDesc (specTypeCounts
              ((events.filter (fun e => e.repo.full_name =
                  ((analyzeEvents events username).repositories[i]).repository_name)).map
                (fun e => e.type)))).take 3).map (fun p => ActivityType.mk p.1 p.2)) := by
  intro events username
  have hreps : (analyzeEvents events username).repositories =
      (groupEventsByRepository events).map (fun g =>
        { repository_name := g.1
          is_owner :=
            match g.2 with
            | e :: _ => isRepositoryOwner e.repo username
            | [] => false
          top_activity_types := getTopActivityTypes g.2 3 : RepositoryActivity }) := rfl
  constructor
  · rw [hreps, List.map_map, ← groupEventsByRepository_keys]
    rfl
  · intro i h
    have hlen : i < (groupEventsByRepository events).length := by
      rw [hreps] at h
      simpa using h
    have hmem : ((groupEventsByRepository events)[i]) ∈ groupEventsByRepository events :=
      List.getElem_mem ..
    have hgrp : ((groupEventsByRepository events)[i]).2 =
        events.filter (fun e =>
          e.repo.full_name = ((groupEventsByRepository events)[i]).1) :=
      group_contents (by
        have hpair : (((groupEventsByRepository events)[i]).1,
            ((groupEventsByRepository events)[i]).2) =
            (groupEventsByRepository events)[i] := rfl
        rw [hpair]
        exact hmem)
    simp only [hreps, List.getElem_map]
    rw [getTopActivityTypes_eq, hgrp]

/-- C1 witness: the three sample events (two Push events on "a/r1", one Pull
event on "b/r2") instantiate the index part at i = 0. -/
theorem c1_grouping_and_ranking_witness :
    (0 < (analyzeEvents sampleEvents "alice").repositories.length) ∧
    (((analyzeEvents sampleEvents "alice").repositories.map (fun r => r.repository_name) =
        specFirstSeen (sampleEvents.map (fun e => e.repo.full_name))) ∧
     ((analyzeEvents sampleEvents "alice").repositories.get ⟨0, by decide⟩).top_activity_types =
        ((specRankDesc (specTypeCounts
            ((sampleEvents.filter (fun e => e.repo.full_name =
                ((analyzeEvents sampleEvents "alice").repositories.get ⟨0, by decide⟩).repository_name)).map
              (fun e => e.type)))).take 3).map (fun p => ActivityType.mk p.1 p.2)) :=
  ⟨by decide,
   ⟨(c1_grouping_and_ranking sampleEvents "alice").1,
    (c1_grouping_and_ranking sampleEvents "alice").2 0 (by decide)⟩⟩

end GithubActivity
